import Mathlib

/-
Verification of the watch-together backend room state machine and caches.

Shallow embedding of:
  - src/backend/connection_manager.py  (ConnectionManager: room state,
    queue/playback operations, sync payload, role management)
  - src/backend/services/cache.py      (MemoryCache.put, parse_range_header)
  - src/backend/core/config.py         (MEMORY_CACHE_MAX_ITEM_PERCENT)

Python dict-shaped room state is modelled as a structure holding the keys the
code reads and writes; wall-clock `time.time()` is passed explicitly as a
rational `now` parameter; Python `str` values that are scanned character by
character are modelled as `List Char`.
-/

/-- A queue entry / video dict. Only the keys the verified operations read are
modelled: an abstract content identity `vid` (standing for url/title fields the
code never branches on), the `pinned` flag and the `is_live` flag. -/
structure VideoItem where
  vid : Nat
  pinned : Bool
  is_live : Bool
  deriving DecidableEq, Repr, Inhabited

/-- Room state dict from `ConnectionManager` (connection_manager.py lines
146-156), restricted to the persistent keys the verified operations touch.
The volatile `members` list and the `empty_since` stamp are not modelled; the
`roles` dict is an association list keyed by email. -/
structure RoomState where
  video_data : Option VideoItem
  is_playing : Bool
  timestamp : Rat
  last_sync_time : Rat
  queue : List VideoItem
  playing_index : Int
  roles : List (String × String)
  permanent : Bool
  deriving DecidableEq, Repr, Inhabited

/-- Lookup in the `roles` dict (`roles.get(email)`): the binding for `email`,
if any. -/
def lookupRole : List (String × String) → String → Option String
  | [], _ => none
  | p :: ps, email => if p.1 = email then some p.2 else lookupRole ps email

/-- Dict assignment `roles[email] = role`: replace the existing binding in
place, or append a fresh one at the end (dict insertion order). -/
def setRole : List (String × String) → String → String → List (String × String)
  | [], email, role => [(email, role)]
  | p :: ps, email, role =>
    if p.1 = email then (email, role) :: ps else p :: setRole ps email role

/-- The fresh room state dict built by `ConnectionManager.connect` for an
unseen room id (connection_manager.py lines 146-156). -/
def initRoom (now : Rat) : RoomState :=
  { video_data := none
    is_playing := false
    timestamp := 0
    last_sync_time := now
    queue := []
    playing_index := -1
    roles := []
    permanent := false }

/-- State effect of `ConnectionManager.connect` (lines 140-177): create the
room if absent, then assign a role — first user becomes admin, later unseen
users default to user. -/
def connect_room (room : Option RoomState) (user : String) (now : Rat) : RoomState :=
  let s := match room with
    | none => initRoom now
    | some s0 => s0
  let roles :=
    if s.roles = [] then setRole s.roles user "admin"
    else if lookupRole s.roles user = none then setRole s.roles user "user"
    else s.roles
  { s with roles := roles }

/-- `ConnectionManager.add_to_queue` (lines 304-309) for an existing room:
append and return the queue. -/
def add_to_queue (s : RoomState) (v : VideoItem) : RoomState × List VideoItem :=
  let q := s.queue ++ [v]
  ({ s with queue := q }, q)

/-- `ConnectionManager.prepend_to_queue` (lines 311-323) for an existing room:
insert at the front, make it current at position 0, playing. -/
def prepend_to_queue (s : RoomState) (v : VideoItem) (now : Rat) :
    RoomState × Option VideoItem × List VideoItem × Int :=
  let q := v :: s.queue
  ({ s with queue := q, playing_index := 0, video_data := some v,
            timestamp := 0, is_playing := true, last_sync_time := now },
   some v, q, 0)

/-- `ConnectionManager.remove_from_queue` (lines 325-344) for an existing room:
refuse to remove the playing index; otherwise pop and shift `playing_index`
down when an earlier item was removed. -/
def remove_from_queue (s : RoomState) (index : Int) : RoomState × List VideoItem :=
  if 0 ≤ index ∧ index < (s.queue.length : Int) then
    if index = s.playing_index then (s, s.queue)
    else
      let q := s.queue.eraseIdx index.toNat
      let pi := if s.playing_index > index then s.playing_index - 1 else s.playing_index
      ({ s with queue := q, playing_index := pi }, q)
  else (s, s.queue)

/-- `ConnectionManager.reorder_queue` (lines 346-366) for an existing room:
pop at `old_index`, insert at `new_index`, and fix up `playing_index` with the
three-way condition used by the code. -/
def reorder_queue (s : RoomState) (old_index new_index : Int) :
    RoomState × List VideoItem :=
  if 0 ≤ old_index ∧ old_index < (s.queue.length : Int) ∧
     0 ≤ new_index ∧ new_index < (s.queue.length : Int) then
    let item := s.queue.getD old_index.toNat default
    let q := (s.queue.eraseIdx old_index.toNat).insertIdx new_index.toNat item
    let pi :=
      if s.playing_index = old_index then new_index
      else if old_index < s.playing_index ∧ s.playing_index ≤ new_index then
        s.playing_index - 1
      else if new_index ≤ s.playing_index ∧ s.playing_index < old_index then
        s.playing_index + 1
      else s.playing_index
    ({ s with queue := q, playing_index := pi }, q)
  else (s, s.queue)

/-- The `was_pinned` local of `ConnectionManager.next_video` (lines 375-378):
whether the finishing item (when the playing index is in range) is pinned. -/
def next_wasPinned (s : RoomState) : Bool :=
  if 0 ≤ s.playing_index ∧ s.playing_index < (s.queue.length : Int) then
    (s.queue.getD s.playing_index.toNat default).pinned
  else false

/-- The `queue` left by the pop step of `next_video` (lines 379-381): the
finishing item is removed exactly when in range and not pinned. -/
def next_queueAfter (s : RoomState) : List VideoItem :=
  if 0 ≤ s.playing_index ∧ s.playing_index < (s.queue.length : Int) ∧
     next_wasPinned s = false then
    s.queue.eraseIdx s.playing_index.toNat
  else s.queue

/-- The `next_index` local of `next_video` (lines 383-389), computed against
the post-pop queue exactly as the code does. -/
def next_index_of (s : RoomState) : Int :=
  if next_wasPinned s = true then
    (if s.playing_index + 1 < ((next_queueAfter s).length : Int) then
      s.playing_index + 1
     else 0)
  else if (next_queueAfter s).length ≠ 0 then
    min s.playing_index (((next_queueAfter s).length : Int) - 1)
  else -1

/-- `ConnectionManager.next_video` (lines 368-408) for an existing room: drop
the finished item unless pinned, then either play the computed next index or
clear playback when nothing is left. The in-range guard makes every list
access safe, so `getD` never falls back to its default. -/
def next_video (s : RoomState) (now : Rat) :
    RoomState × Option VideoItem × List VideoItem × Int :=
  if (next_queueAfter s).length ≠ 0 ∧ 0 ≤ next_index_of s then
    let v := (next_queueAfter s).getD (next_index_of s).toNat default
    ({ s with queue := next_queueAfter s, video_data := some v, timestamp := 0,
              last_sync_time := now, is_playing := true,
              playing_index := next_index_of s },
     some v, next_queueAfter s, next_index_of s)
  else
    ({ s with queue := next_queueAfter s, video_data := none, is_playing := false,
              playing_index := -1, last_sync_time := now },
     none, next_queueAfter s, -1)

/-- `ConnectionManager.toggle_pin` (lines 410-418) for an existing room: flip
the `pinned` flag of the item at `index` when in range. -/
def toggle_pin (s : RoomState) (index : Int) : RoomState × List VideoItem :=
  if 0 ≤ index ∧ index < (s.queue.length : Int) then
    let v := s.queue.getD index.toNat default
    let q := s.queue.set index.toNat { v with pinned := !v.pinned }
    ({ s with queue := q }, q)
  else (s, s.queue)

/-- `ConnectionManager.play_from_queue` (lines 420-435) for an existing room:
make the item at `index` current (position 0, playing) while leaving the queue
itself untouched. Out of range returns the empty-result triple unchanged. -/
def play_from_queue (s : RoomState) (index : Int) (now : Rat) :
    RoomState × Option VideoItem × List VideoItem × Int :=
  if 0 ≤ index ∧ index < (s.queue.length : Int) then
    let v := s.queue.getD index.toNat default
    ({ s with video_data := some v, timestamp := 0, last_sync_time := now,
              is_playing := true, playing_index := index },
     some v, s.queue, index)
  else (s, none, [], -1)

/-- The timestamp adjustment performed by `ConnectionManager.get_sync_payload`
(lines 115-138): extrapolate by elapsed wall clock only when playing and the
current video is present and not a livestream. -/
def sync_timestamp (s : RoomState) (now : Rat) : Rat :=
  match s.is_playing, s.video_data with
  | true, some v =>
    if v.is_live = false then s.timestamp + (now - s.last_sync_time)
    else s.timestamp
  | _, _ => s.timestamp

/-- The payload returned by `get_sync_payload`: a copy of the state with the
adjusted timestamp and with the internal `last_sync_time` key popped. -/
structure SyncPayload where
  video_data : Option VideoItem
  is_playing : Bool
  timestamp : Rat
  queue : List VideoItem
  playing_index : Int
  roles : List (String × String)
  permanent : Bool
  deriving DecidableEq, Repr

/-- `ConnectionManager.get_sync_payload` (lines 115-138) for an existing room,
with `time.time()` passed as `now`. -/
def get_sync_payload (s : RoomState) (now : Rat) : SyncPayload :=
  { video_data := s.video_data
    is_playing := s.is_playing
    timestamp := sync_timestamp s now
    queue := s.queue
    playing_index := s.playing_index
    roles := s.roles
    permanent := s.permanent }

/-- A partial update dict handed to `ConnectionManager.update_state`; `none`
means the key is absent from the dict. The modelled keys are the room-state
keys the server handlers ever send. -/
structure StateUpdate where
  video_data : Option (Option VideoItem) := none
  is_playing : Option Bool := none
  timestamp : Option Rat := none
  queue : Option (List VideoItem) := none
  playing_index : Option Int := none
  roles : Option (List (String × String)) := none
  permanent : Option Bool := none
  deriving DecidableEq, Repr

/-- `ConnectionManager.update_state` (lines 288-302) for an existing room:
`dict.update` semantics on the present keys, then refresh `last_sync_time`
exactly when the update dict contains `is_playing` or `timestamp`. -/
def update_state (s : RoomState) (u : StateUpdate) (now : Rat) : RoomState :=
  let s1 : RoomState :=
    { video_data := u.video_data.getD s.video_data
      is_playing := u.is_playing.getD s.is_playing
      timestamp := u.timestamp.getD s.timestamp
      last_sync_time := s.last_sync_time
      queue := u.queue.getD s.queue
      playing_index := u.playing_index.getD s.playing_index
      roles := u.roles.getD s.roles
      permanent := u.permanent.getD s.permanent }
  if u.is_playing.isSome ∨ u.timestamp.isSome then { s1 with last_sync_time := now }
  else s1

/-- `ConnectionManager.promote_user` (lines 38-57); `none` models a room id
absent from `room_states`. Returns the (possibly updated) room and the
success flag. -/
def promote_user (room : Option RoomState) (requester target new_role : String) :
    Option RoomState × Bool :=
  match room with
  | none => (none, false)
  | some s =>
    if lookupRole s.roles requester ≠ some "admin" then (some s, false)
    else if new_role ∉ (["admin", "moderator", "user"] : List String) then (some s, false)
    else (some { s with roles := setRole s.roles target new_role }, true)


/-- One entry of `MemoryCache._cache` (cache.py line 48): the OrderedDict is
modelled as a list in insertion order (front = oldest), each entry carrying
its key and the `(data, content_type, added_at)` value, with payload bytes as
a `List Nat`. -/
structure MemEntry where
  key : String
  data : List Nat
  ctype : String
  added_at : Rat
  deriving DecidableEq, Repr

/-- The `MemoryCache` object state (cache.py lines 46-54): ordered entries,
the running `_current_size` counter (a Python int, hence `Int`), the
configured `_max_size`, and the `_audio_keys` set as a duplicate-free list. -/
structure MemoryCache where
  cache : List MemEntry
  current_size : Int
  max_size : Nat
  audio_keys : List String
  deriving DecidableEq, Repr

/-- A freshly constructed `MemoryCache(max_size_bytes)`. -/
def MemoryCache.empty (max_size_bytes : Nat) : MemoryCache :=
  { cache := [], current_size := 0, max_size := max_size_bytes, audio_keys := [] }

/-- Pop the first entry satisfying `p` out of the list, returning it and the
remainder; models `OrderedDict.pop(key)` and the code's first-match eviction
scan. -/
def extractFirst (p : MemEntry → Bool) : List MemEntry → Option (MemEntry × List MemEntry)
  | [] => none
  | e :: es =>
    if p e then some (e, es)
    else
      match extractFirst p es with
      | some (x, r) => some (x, e :: r)
      | none => none

/-- The eviction `while` loop of `MemoryCache.put` (cache.py lines 92-108):
while the incoming payload would overflow the cap and entries remain, pop the
first non-audio entry, or failing that the oldest entry (discarding it from
the audio set). Each iteration removes exactly one entry, so running the loop
with `fuel` equal to the entry count is exhaustive. -/
def evictLoop (max_size incoming : Nat) :
    Nat → List MemEntry → Int → List String → List MemEntry × Int × List String
  | 0, es, sz, au => (es, sz, au)
  | fuel + 1, es, sz, au =>
    if sz + (incoming : Int) > (max_size : Int) ∧ es ≠ [] then
      match extractFirst (fun e => !(au.contains e.key)) es with
      | some (x, r) => evictLoop max_size incoming fuel r (sz - (x.data.length : Int)) au
      | none =>
        match es with
        | [] => (es, sz, au)
        | e :: r =>
          evictLoop max_size incoming fuel r (sz - (e.data.length : Int))
            (au.filter (fun k => k ≠ e.key))
    else (es, sz, au)

/-- The same-key replacement step of `MemoryCache.put` (cache.py lines
85-89): if `key` is already cached, pop its entry, deduct its size, and
discard it from the audio set; otherwise leave everything as is. Returns the
`(entries, current_size, audio_keys)` triple the eviction loop starts from. -/
def putPopped (c : MemoryCache) (key : String) : List MemEntry × Int × List String :=
  match extractFirst (fun e => e.key == key) c.cache with
  | some (x, r) =>
    (r, c.current_size - (x.data.length : Int), c.audio_keys.filter (fun k => k ≠ key))
  | none => (c.cache, c.current_size, c.audio_keys)

/-- `MemoryCache.put` (cache.py lines 71-114). `MEMORY_CACHE_MAX_ITEM_PERCENT`
is `0.25` (config.py line 19); `0.25` is an exact binary float, so
`int(self._max_size * 0.25)` is exactly `max_size / 4` in natural division for
every realistic size. Oversized payloads return without touching the cache;
otherwise a same-key entry is replaced, the eviction loop frees space, and the
new entry is appended (most recent), updating the size counter and audio set. -/
def MemoryCache.put (c : MemoryCache) (key : String) (data : List Nat)
    (ctype : String) (is_audio : Bool) (now : Rat) : MemoryCache :=
  let max_item := c.max_size / 4
  if data.length > max_item then c
  else
    let evicted := evictLoop c.max_size data.length (putPopped c key).1.length
      (putPopped c key).1 (putPopped c key).2.1 (putPopped c key).2.2
    { cache := evicted.1 ++ [{ key := key, data := data, ctype := ctype, added_at := now }]
      current_size := evicted.2.1 + (data.length : Int)
      max_size := c.max_size
      audio_keys :=
        if is_audio then
          (if evicted.2.2.contains key then evicted.2.2 else evicted.2.2 ++ [key])
        else evicted.2.2 }

/-- Total payload bytes resident in a list of cache entries. -/
def memBytes (es : List MemEntry) : Nat := (es.map (fun e => e.data.length)).sum

/-- Python `str.strip()` whitespace test, for the characters that can occur in
an HTTP header value (ASCII whitespace). -/
def isSpaceChar (c : Char) : Bool :=
  c = ' ' ∨ c = '\t' ∨ c = '\n' ∨ c = '\r' ∨ c = '\x0b' ∨ c = '\x0c'

/-- Python `str.strip()` on a character list. -/
def pyStrip (l : List Char) : List Char :=
  ((l.dropWhile isSpaceChar).reverse.dropWhile isSpaceChar).reverse

/-- Digit-run acceptor, continuation state: Python `int()` accepts digits with
single underscores strictly between digits. -/
def pyDigitsTail : List Char → Bool
  | [] => true
  | c :: rest =>
    if c = '_' then
      match rest with
      | [] => false
      | d :: rest2 => d.isDigit && pyDigitsTail rest2
    else c.isDigit && pyDigitsTail rest

/-- Whole digit-run acceptor for Python `int()` bodies (ASCII digits,
optional single internal underscores). -/
def pyDigitsOk : List Char → Bool
  | [] => false
  | c :: rest => c.isDigit && pyDigitsTail rest

/-- Numeric value of an ASCII digit run (underscores already removed). -/
def digitsVal (l : List Char) : Nat :=
  l.foldl (fun a c => 10 * a + (c.toNat - '0'.toNat)) 0

/-- Python `int(s)` on a string modelled as `List Char`: strip whitespace,
optional sign, then an underscore-tolerant ASCII digit run; `none` models a
raised `ValueError`. -/
def pyInt (l : List Char) : Option Int :=
  match pyStrip l with
  | [] => none
  | c :: rest =>
    if c = '+' then
      (if pyDigitsOk rest then
        some ((digitsVal (rest.filter (fun x => x ≠ '_')) : Nat) : Int)
       else none)
    else if c = '-' then
      (if pyDigitsOk rest then
        some (-((digitsVal (rest.filter (fun x => x ≠ '_')) : Nat) : Int))
       else none)
    else
      (if pyDigitsOk (c :: rest) then
        some ((digitsVal ((c :: rest).filter (fun x => x ≠ '_')) : Nat) : Int)
       else none)

/-- Python `s.split(sep)` for a one-character separator. -/
def splitOnChar (sep : Char) : List Char → List (List Char)
  | [] => [[]]
  | c :: rest =>
    if c = sep then [] :: splitOnChar sep rest
    else
      match splitOnChar sep rest with
      | r :: rs => (c :: r) :: rs
      | [] => [[c]]

/-- `parse_range_header` (cache.py lines 264-277) on a Python `str` modelled
as `List Char`. An empty value models a missing header (main.py line 543 uses
`headers.get("Range", "")`); any `ValueError` from `int()` yields `(0, none)`. -/
def parse_range_header (h : List Char) : Int × Option Int :=
  if h = [] ∨ ¬ ("bytes=".toList.isPrefixOf h) then (0, none)
  else
    let spec := h.drop 6
    if '-' ∈ spec then
      match splitOnChar '-' spec with
      | p0 :: p1 :: _ =>
        match (if p0 = [] then some (0 : Int) else pyInt p0) with
        | none => (0, none)
        | some start =>
          if p1 = [] then (start, none)
          else
            match pyInt p1 with
            | none => (0, none)
            | some e => (start, some e)
      | _ => (0, none)
    else (0, none)

example : parse_range_header "bytes=12345-".toList = (12345, none) := by decide
example : parse_range_header "bytes=12345-67890".toList = (12345, some 67890) := by decide
example : parse_range_header "bytes=1-2-3".toList = (1, some 2) := by decide
example : parse_range_header "bytes=-500".toList = (0, some 500) := by decide
example : parse_range_header "".toList = (0, none) := by decide
example : parse_range_header "items=1-2".toList = (0, none) := by decide
example : parse_range_header "bytes=a-2".toList = (0, none) := by decide
example : parse_range_header "bytes=12345".toList = (0, none) := by decide
example :
    (MemoryCache.put (MemoryCache.empty 100) "a" [1, 2, 3] "t" false 0).cache.length = 1 := by
  decide
example :
    (MemoryCache.put (MemoryCache.empty 100) "a" (List.replicate 26 0) "t" false 0)
      = MemoryCache.empty 100 := by decide

/-- The queue/playing-index coherence invariant stated by the spec:
`playing_index == -1 or 0 <= playing_index < len(queue)`. -/
def playingIndexInv (s : RoomState) : Prop :=
  s.playing_index = -1 ∨
    (0 ≤ s.playing_index ∧ s.playing_index < (s.queue.length : Int))

instance (s : RoomState) : Decidable (playingIndexInv s) := by
  unfold playingIndexInv; infer_instance

/-- Room states reachable by any sequence of the connect, queue and playback
operations, from a fresh room, with arbitrary arguments and clock values. -/
inductive RoomReachable : RoomState → Prop
  | connect_new (user : String) (now : Rat) :
      RoomReachable (connect_room none user now)
  | connect {s : RoomState} (user : String) (now : Rat) :
      RoomReachable s → RoomReachable (connect_room (some s) user now)
  | add {s : RoomState} (v : VideoItem) :
      RoomReachable s → RoomReachable (add_to_queue s v).1
  | prepend {s : RoomState} (v : VideoItem) (now : Rat) :
      RoomReachable s → RoomReachable (prepend_to_queue s v now).1
  | remove {s : RoomState} (i : Int) :
      RoomReachable s → RoomReachable (remove_from_queue s i).1
  | reorder {s : RoomState} (i j : Int) :
      RoomReachable s → RoomReachable (reorder_queue s i j).1
  | pin {s : RoomState} (i : Int) :
      RoomReachable s → RoomReachable (toggle_pin s i).1
  | playFrom {s : RoomState} (i : Int) (now : Rat) :
      RoomReachable s → RoomReachable (play_from_queue s i now).1
  | next {s : RoomState} (now : Rat) :
      RoomReachable s → RoomReachable (next_video s now).1

/-- Memory caches reachable from a fresh `MemoryCache` by any sequence of
`put` calls (the operation the size invariant is claimed over). -/
inductive MemReachable : MemoryCache → Prop
  | empty (max_size_bytes : Nat) : MemReachable (MemoryCache.empty max_size_bytes)
  | put {c : MemoryCache} (key : String) (data : List Nat) (ctype : String)
      (is_audio : Bool) (now : Rat) :
      MemReachable c → MemReachable (c.put key data ctype is_audio now)

theorem length_eraseIdx_of_lt {α : Type} (l : List α) (n : Nat) (h : n < l.length) :
    (l.eraseIdx n).length = l.length - 1 := by
  rw [List.length_eraseIdx]; simp [h]

theorem connect_room_queue (room : Option RoomState) (user : String) (now : Rat) :
    (connect_room room user now).queue = (room.getD (initRoom now)).queue := by
  cases room <;> simp [connect_room]

theorem connect_room_playing_index (room : Option RoomState) (user : String) (now : Rat) :
    (connect_room room user now).playing_index
      = (room.getD (initRoom now)).playing_index := by
  cases room <;> simp [connect_room]

theorem inv_connect_new (user : String) (now : Rat) :
    playingIndexInv (connect_room none user now) := by
  left
  rw [connect_room_playing_index]
  rfl

theorem inv_connect {s : RoomState} (user : String) (now : Rat)
    (h : playingIndexInv s) : playingIndexInv (connect_room (some s) user now) := by
  unfold playingIndexInv at *
  rw [connect_room_playing_index, connect_room_queue]
  exact h

theorem inv_add {s : RoomState} (v : VideoItem) (h : playingIndexInv s) :
    playingIndexInv (add_to_queue s v).1 := by
  unfold playingIndexInv add_to_queue at *
  simp only [List.length_append, List.length_cons, List.length_nil]
  rcases h with h | h
  · left; exact h
  · right; push_cast; omega

theorem prepend_to_queue_fields (s : RoomState) (v : VideoItem) (now : Rat) :
    (prepend_to_queue s v now).1.queue = v :: s.queue ∧
    (prepend_to_queue s v now).1.playing_index = 0 :=
  ⟨rfl, rfl⟩

theorem inv_prepend {s : RoomState} (v : VideoItem) (now : Rat) :
    playingIndexInv (prepend_to_queue s v now).1 := by
  unfold playingIndexInv
  right
  rw [(prepend_to_queue_fields s v now).1, (prepend_to_queue_fields s v now).2]
  simp only [List.length_cons]
  constructor
  · omega
  · push_cast
    omega

theorem inv_remove {s : RoomState} (i : Int) (h : playingIndexInv s) :
    playingIndexInv (remove_from_queue s i).1 := by
  unfold playingIndexInv remove_from_queue at *
  split
  case isTrue hin =>
    split
    case isTrue => exact h
    case isFalse hne =>
      simp only
      rw [length_eraseIdx_of_lt _ _ (by omega)]
      rcases h with h | h
      · left; simp only [h]; split <;> omega
      · right
        constructor <;> (split <;> omega)
  case isFalse => exact h

theorem inv_reorder {s : RoomState} (i j : Int) (h : playingIndexInv s) :
    playingIndexInv (reorder_queue s i j).1 := by
  unfold playingIndexInv reorder_queue at *
  split
  case isTrue hin =>
    simp only
    rw [List.length_insertIdx _ _ (by rw [length_eraseIdx_of_lt _ _ (by omega)]; omega),
      length_eraseIdx_of_lt _ _ (by omega)]
    have hq : (1:Int) ≤ (s.queue.length : Int) := by omega
    rcases h with h | h
    · left; simp only [h]; split
      · omega
      · split
        · omega
        · split <;> omega
    · right
      constructor <;> (split
                       · omega
                       · split
                         · push_cast; omega
                         · split <;> push_cast <;> omega)
  case isFalse => exact h

theorem inv_pin {s : RoomState} (i : Int) (h : playingIndexInv s) :
    playingIndexInv (toggle_pin s i).1 := by
  unfold playingIndexInv toggle_pin at *
  split
  · simp only [List.length_set]
    exact h
  · exact h

theorem inv_play_from {s : RoomState} (i : Int) (now : Rat)
    (h : playingIndexInv s) : playingIndexInv (play_from_queue s i now).1 := by
  unfold playingIndexInv play_from_queue at *
  split
  case isTrue hin => right; exact ⟨hin.1, hin.2⟩
  case isFalse => exact h

theorem next_queueAfter_of_pinned (s : RoomState) (h : next_wasPinned s = true) :
    next_queueAfter s = s.queue := by
  unfold next_queueAfter
  rw [if_neg]
  simp [h]

theorem next_index_of_lt (s : RoomState) (hne : (next_queueAfter s).length ≠ 0) :
    next_index_of s < ((next_queueAfter s).length : Int) := by
  unfold next_index_of
  split <;> first | (split <;> omega) | omega

theorem inv_next {s : RoomState} (now : Rat) :
    playingIndexInv (next_video s now).1 := by
  unfold playingIndexInv next_video
  split
  case isTrue hcond =>
    dsimp only
    right
    exact ⟨hcond.2, next_index_of_lt s hcond.1⟩
  case isFalse => left; rfl

/-- C1: for every room state reachable by any sequence of the connect, queue
and playback operations (connect, prepend_and_play, add, remove, reorder,
toggle_pin, play_from_queue, advance_to_next), the invariant
`playing_index == -1 or 0 <= playing_index < len(queue)` holds. -/
theorem C1_playing_index_invariant (s : RoomState) (h : RoomReachable s) :
    playingIndexInv s := by
  induction h with
  | connect_new user now => exact inv_connect_new user now
  | connect user now _ ih => exact inv_connect user now ih
  | add v _ ih => exact inv_add v ih
  | prepend v now _ => exact inv_prepend v now
  | remove i _ ih => exact inv_remove i ih
  | reorder i j _ ih => exact inv_reorder i j ih
  | pin i _ ih => exact inv_pin i ih
  | playFrom i now _ ih => exact inv_play_from i now ih
  | next now _ => exact inv_next now

/-- C1 witness: the invariant, evaluated at the concrete room obtained by
connecting, prepending a video, adding another, and removing index 0 (refused
because it is playing). -/
theorem C1_playing_index_invariant_witness :
    playingIndexInv
      (remove_from_queue
        (add_to_queue (prepend_to_queue (connect_room none "a" 0) ⟨1, false, false⟩ 2).1
          ⟨2, false, false⟩).1 0).1 :=
  C1_playing_index_invariant _
    (RoomReachable.remove 0
      (RoomReachable.add ⟨2, false, false⟩
        (RoomReachable.prepend ⟨1, false, false⟩ 2 (RoomReachable.connect_new "a" 0))))

/-- Concrete two-item room: unpinned item 0 currently playing at index 0,
unpinned item 1 queued behind it. -/
def roomAB : RoomState :=
  { video_data := some ⟨0, false, false⟩
    is_playing := true
    timestamp := 3
    last_sync_time := 0
    queue := [⟨0, false, false⟩, ⟨1, false, false⟩]
    playing_index := 0
    roles := []
    permanent := false }

/-- C2 counterexample: in `roomAB` the unpinned item 0 is playing at index 0;
`play_from_queue(1)` leaves the queue unchanged — the previously playing item
is NOT removed and the targeted index is NOT adjusted down to 0 — refuting the
claim that the previous unpinned item is removed first. -/
theorem C2_counterexample :
    (play_from_queue roomAB 1 7).1.queue = [⟨0, false, false⟩, ⟨1, false, false⟩] ∧
    ⟨0, false, false⟩ ∈ (play_from_queue roomAB 1 7).1.queue ∧
    (play_from_queue roomAB 1 7).1.playing_index = 1 ∧
    (play_from_queue roomAB 1 7).2.2.2 = 1 := by decide

/-- C2 amended: `play_from_queue(index)` with an in-range index makes the
targeted item current with position 0 and `is_playing = true` and
`playing_index = index`, leaving the queue itself unchanged — the previously
playing item, pinned or not, stays in the queue and no index adjustment
occurs. -/
theorem C2_play_from_queue_keeps_queue (s : RoomState) (i : Int) (now : Rat)
    (h : 0 ≤ i ∧ i < (s.queue.length : Int)) :
    (play_from_queue s i now).1.queue = s.queue ∧
    (play_from_queue s i now).1.playing_index = i ∧
    (play_from_queue s i now).1.timestamp = 0 ∧
    (play_from_queue s i now).1.is_playing = true ∧
    (play_from_queue s i now).1.video_data = some (s.queue.getD i.toNat default) ∧
    (play_from_queue s i now).2.1 = some (s.queue.getD i.toNat default) ∧
    (play_from_queue s i now).2.2.1 = s.queue ∧
    (play_from_queue s i now).2.2.2 = i := by
  unfold play_from_queue
  rw [if_pos h]
  exact ⟨rfl, rfl, rfl, rfl, rfl, rfl, rfl, rfl⟩

/-- C2 witness: the amended statement applied to `roomAB` at index 1. -/
theorem C2_play_from_queue_keeps_queue_witness :
    (play_from_queue roomAB 1 7).1.queue = roomAB.queue ∧
    (play_from_queue roomAB 1 7).1.playing_index = 1 ∧
    (play_from_queue roomAB 1 7).1.timestamp = 0 ∧
    (play_from_queue roomAB 1 7).1.is_playing = true ∧
    (play_from_queue roomAB 1 7).1.video_data = some (roomAB.queue.getD 1 default) ∧
    (play_from_queue roomAB 1 7).2.1 = some (roomAB.queue.getD 1 default) ∧
    (play_from_queue roomAB 1 7).2.2.1 = roomAB.queue ∧
    (play_from_queue roomAB 1 7).2.2.2 = 1 :=
  C2_play_from_queue_keeps_queue roomAB 1 7 (by decide)

/-- Concrete one-item room: a single pinned item, currently playing. -/
def roomOnePinned : RoomState :=
  { video_data := some ⟨5, true, false⟩
    is_playing := true
    timestamp := 9
    last_sync_time := 0
    queue := [⟨5, true, false⟩]
    playing_index := 0
    roles := []
    permanent := false }

/-- C3 counterexample: when the queue holds only one pinned item and it
finishes, the code does not stop — it wraps `next_index` to 0 and restarts the
same item (position 0, still playing), refuting the claim that playback stops
when the queue contains only that one pinned item. -/
theorem C3_counterexample :
    (next_video roomOnePinned 4).1.is_playing = true ∧
    (next_video roomOnePinned 4).1.playing_index = 0 ∧
    (next_video roomOnePinned 4).1.video_data = some ⟨5, true, false⟩ ∧
    (next_video roomOnePinned 4).1.timestamp = 0 ∧
    (next_video roomOnePinned 4).2.1 = some ⟨5, true, false⟩ := by decide

/-- C3 amended: on playback end (`next_video`), with the finishing index in
range: a pinned finishing item stays in the queue and play moves to the next
index, wrapping to index 0 whenever the finishing index was the last — with a
single pinned item this restarts that same item (the code never stops in this
case); an unpinned finishing item is removed, the next item shifts into its
slot (index `min(playing_index, len-1)` of the shortened queue), and if the
queue becomes empty the video is cleared, `is_playing = false`,
`playing_index = -1`. -/
theorem C3_next_video_characterization (s : RoomState) (now : Rat)
    (h : 0 ≤ s.playing_index ∧ s.playing_index < (s.queue.length : Int)) :
    ((s.queue.getD s.playing_index.toNat default).pinned = true →
      (next_video s now).1.queue = s.queue ∧
      (next_video s now).1.playing_index =
        (if s.playing_index + 1 < (s.queue.length : Int) then s.playing_index + 1
         else 0) ∧
      (next_video s now).1.is_playing = true ∧
      (next_video s now).1.timestamp = 0 ∧
      (next_video s now).1.video_data =
        some (s.queue.getD
          (if s.playing_index + 1 < (s.queue.length : Int) then s.playing_index + 1
           else 0).toNat default)) ∧
    ((s.queue.getD s.playing_index.toNat default).pinned = false →
      (next_video s now).1.queue = s.queue.eraseIdx s.playing_index.toNat ∧
      (s.queue.eraseIdx s.playing_index.toNat = [] →
        (next_video s now).1.video_data = none ∧
        (next_video s now).1.is_playing = false ∧
        (next_video s now).1.playing_index = -1) ∧
      (s.queue.eraseIdx s.playing_index.toNat ≠ [] →
        (next_video s now).1.playing_index =
          min s.playing_index
            (((s.queue.eraseIdx s.playing_index.toNat).length : Int) - 1) ∧
        (next_video s now).1.is_playing = true ∧
        (next_video s now).1.timestamp = 0 ∧
        (next_video s now).1.video_data =
          some ((s.queue.eraseIdx s.playing_index.toNat).getD
            (min s.playing_index
              (((s.queue.eraseIdx s.playing_index.toNat).length : Int) - 1)).toNat
            default))) := by
  constructor
  · intro hpin
    have hwp : next_wasPinned s = true := by
      unfold next_wasPinned; rw [if_pos h]; exact hpin
    have hq : next_queueAfter s = s.queue := next_queueAfter_of_pinned s hwp
    have hni : next_index_of s =
        (if s.playing_index + 1 < (s.queue.length : Int) then s.playing_index + 1
         else 0) := by
      unfold next_index_of
      rw [if_pos hwp, hq]
    have hcond : (next_queueAfter s).length ≠ 0 ∧ 0 ≤ next_index_of s := by
      rw [hq, hni]
      constructor
      · omega
      · split <;> omega
    unfold next_video
    rw [if_pos hcond]
    refine ⟨hq, hni, rfl, rfl, ?_⟩
    dsimp only
    rw [hq, hni]
  · intro hpin
    have hwp : next_wasPinned s = false := by
      unfold next_wasPinned; rw [if_pos h]; exact hpin
    have hq : next_queueAfter s = s.queue.eraseIdx s.playing_index.toNat := by
      unfold next_queueAfter
      rw [if_pos ⟨h.1, h.2, hwp⟩]
    refine ⟨?_, ?_, ?_⟩
    · unfold next_video
      split <;> (dsimp only; rw [hq])
    · intro hemp
      have hcond : ¬ ((next_queueAfter s).length ≠ 0 ∧ 0 ≤ next_index_of s) := by
        rw [hq, hemp]
        simp
      unfold next_video
      rw [if_neg hcond]
      exact ⟨rfl, rfl, rfl⟩
    · intro hne
      have hlen : (next_queueAfter s).length ≠ 0 := by
        rw [hq]
        simpa using hne
      have hni : next_index_of s =
          min s.playing_index
            (((s.queue.eraseIdx s.playing_index.toNat).length : Int) - 1) := by
        unfold next_index_of
        rw [if_neg (by simp [hwp]), if_pos hlen, hq]
      have hcond : (next_queueAfter s).length ≠ 0 ∧ 0 ≤ next_index_of s := by
        refine ⟨hlen, ?_⟩
        rw [hni]
        have h1 := h.1
        have h2 : (0:Int) ≤ ((s.queue.eraseIdx s.playing_index.toNat).length : Int) - 1 := by
          have : (next_queueAfter s).length ≠ 0 := hlen
          rw [hq] at this
          omega
        omega
      unfold next_video
      rw [if_pos hcond]
      refine ⟨hni, rfl, rfl, ?_⟩
      dsimp only
      rw [hq, hni]

/-- Concrete two-item room whose first item is pinned and playing. -/
def roomPinnedFirst : RoomState :=
  { video_data := some ⟨7, true, false⟩
    is_playing := true
    timestamp := 6
    last_sync_time := 0
    queue := [⟨7, true, false⟩, ⟨8, false, false⟩]
    playing_index := 0
    roles := []
    permanent := false }

/-- C3 witness: the amended characterization evaluated on a pinned finishing
item (stays, moves to index 1) and on `roomAB`'s unpinned finishing item
(removed, successor shifts into slot 0). -/
theorem C3_next_video_characterization_witness :
    (next_video roomPinnedFirst 4).1.queue = [⟨7, true, false⟩, ⟨8, false, false⟩] ∧
    (next_video roomPinnedFirst 4).1.playing_index = 1 ∧
    (next_video roomAB 4).1.queue = [⟨1, false, false⟩] ∧
    (next_video roomAB 4).1.playing_index = 0 ∧
    (next_video roomAB 4).1.video_data = some ⟨1, false, false⟩ := by
  have h1 := (C3_next_video_characterization roomPinnedFirst 4 (by decide)).1 (by decide)
  have h2 := (C3_next_video_characterization roomAB 4 (by decide)).2 (by decide)
  have h3 := h2.2.2 (by decide)
  exact ⟨h1.1.trans (by decide), h1.2.1.trans (by decide), h2.1.trans (by decide),
    h3.1.trans (by decide), h3.2.2.2.trans (by decide)⟩

/-- Concrete three-item room, the LAST item playing (`playing_index = 2`). -/
def roomABClast : RoomState :=
  { video_data := some ⟨2, false, false⟩
    is_playing := true
    timestamp := 1
    last_sync_time := 0
    queue := [⟨0, false, false⟩, ⟨1, false, false⟩, ⟨2, false, false⟩]
    playing_index := 2
    roles := []
    permanent := false }

/-- C5 counterexample: `reorder(0, 2)` on `roomABClast` shifts
`playing_index` from 2 down to 1 even though 2 is not the moved index and is
not strictly between 0 and 2, refuting the claim that the index is shifted
only for indices strictly between `old` and `new`. -/
theorem C5_counterexample :
    (reorder_queue roomABClast 0 2).1.playing_index = 1 ∧
    roomABClast.playing_index = 2 ∧
    (2 : Int) ≠ 0 ∧
    ¬ ((0 : Int) < 2 ∧ (2 : Int) < 2) := by decide

/-- C5 amended: for in-range indices, `reorder(old, new)` keeps the queue
length, places the moved item at index `new`, and updates `playing_index` as:
`new` if the playing item moved, minus 1 for indices in the half-open interval
`old < i <= new` (the boundary `new` included), plus 1 for indices with
`new <= i < old`, unchanged otherwise; in particular queue `[A,B,C]` with
`playing_index = 0` under `reorder(0,2)` yields `[B,C,A]` with
`playing_index = 2`. -/
theorem C5_reorder_characterization (s : RoomState) (oldI newI : Int)
    (h : 0 ≤ oldI ∧ oldI < (s.queue.length : Int) ∧
         0 ≤ newI ∧ newI < (s.queue.length : Int)) :
    (reorder_queue s oldI newI).1.queue.length = s.queue.length ∧
    (reorder_queue s oldI newI).1.queue.getD newI.toNat default
      = s.queue.getD oldI.toNat default ∧
    (reorder_queue s oldI newI).1.playing_index =
      (if s.playing_index = oldI then newI
       else if oldI < s.playing_index ∧ s.playing_index ≤ newI then
         s.playing_index - 1
       else if newI ≤ s.playing_index ∧ s.playing_index < oldI then
         s.playing_index + 1
       else s.playing_index) := by
  have hlt : oldI.toNat < s.queue.length := by omega
  have hle : newI.toNat ≤ (s.queue.eraseIdx oldI.toNat).length := by
    rw [length_eraseIdx_of_lt _ _ hlt]; omega
  unfold reorder_queue
  rw [if_pos h]
  refine ⟨?_, ?_, rfl⟩
  · dsimp only
    rw [List.length_insertIdx _ _ hle, length_eraseIdx_of_lt _ _ hlt]
    omega
  · dsimp only
    rw [List.getD_eq_getElem?_getD,
      List.getElem?_eq_getElem
        (by rw [List.length_insertIdx _ _ hle, length_eraseIdx_of_lt _ _ hlt]; omega),
      List.getElem_insertIdx_self _ _ _ hle]
    rfl

/-- Concrete three-item room, the FIRST item playing, as in the spec's
reorder example. -/
def roomABCfirst : RoomState :=
  { video_data := some ⟨0, false, false⟩
    is_playing := true
    timestamp := 1
    last_sync_time := 0
    queue := [⟨0, false, false⟩, ⟨1, false, false⟩, ⟨2, false, false⟩]
    playing_index := 0
    roles := []
    permanent := false }

/-- C5 witness: the spec's own example — queue `[A,B,C]` with
`playing_index = 0`; `reorder(0,2)` yields `[B,C,A]` and `playing_index = 2`. -/
theorem C5_reorder_characterization_witness :
    (reorder_queue roomABCfirst 0 2).1.queue
      = [⟨1, false, false⟩, ⟨2, false, false⟩, ⟨0, false, false⟩] ∧
    (reorder_queue roomABCfirst 0 2).1.playing_index = 2 := by
  have h := C5_reorder_characterization roomABCfirst 0 2 (by decide)
  exact ⟨by decide, h.2.2.trans (by decide)⟩

/-- C4: `get_sync_payload` returns the stored position plus the wall-clock
time elapsed since `last_sync_time` exactly when `is_playing` is true and the
current video is not live; otherwise (paused, or live) the stored position is
returned unchanged. -/
theorem C4_sync_extrapolation (s : RoomState) (now : Rat) (v : VideoItem)
    (hv : s.video_data = some v) :
    (get_sync_payload s now).timestamp =
      (if s.is_playing = true ∧ v.is_live = false then
        s.timestamp + (now - s.last_sync_time)
       else s.timestamp) := by
  unfold get_sync_payload sync_timestamp
  cases hp : s.is_playing <;> rw [hv] <;> cases hl : v.is_live <;> simp [hp, hl]

/-- Concrete playing, non-live room at position 10, synced at wall time 100. -/
def roomAt10 : RoomState :=
  { video_data := some ⟨1, false, false⟩
    is_playing := true
    timestamp := 10
    last_sync_time := 100
    queue := [⟨1, false, false⟩]
    playing_index := 0
    roles := []
    permanent := false }

/-- C4 witness: at wall time 105 the playing non-live room reports 15; the
same room marked live reports exactly 10; the paused room reports exactly
10. -/
theorem C4_sync_extrapolation_witness :
    (get_sync_payload roomAt10 105).timestamp = 15 ∧
    (get_sync_payload { roomAt10 with video_data := some ⟨1, false, true⟩ } 105).timestamp
      = 10 ∧
    (get_sync_payload { roomAt10 with is_playing := false } 105).timestamp = 10 := by
  refine ⟨?_, ?_, ?_⟩
  · rw [C4_sync_extrapolation _ 105 ⟨1, false, false⟩ rfl]; norm_num [roomAt10]
  · rw [C4_sync_extrapolation _ 105 ⟨1, false, true⟩ rfl]; norm_num [roomAt10]
  · rw [C4_sync_extrapolation _ 105 ⟨1, false, false⟩ rfl]; norm_num [roomAt10]

/-- C6: `update_state` merges exactly the present keys (absent keys keep their
old value, present keys take the new one) and refreshes `last_sync_time` if
and only if the update contains `is_playing` or `timestamp`; consequently
`get_sync_payload` immediately after pausing at a position returns that exact
position with no extrapolation. -/
theorem C6_update_state_merge (s : RoomState) (u : StateUpdate) (now now2 p : Rat) :
    ((u.is_playing.isSome ∨ u.timestamp.isSome) →
      (update_state s u now).last_sync_time = now) ∧
    (u.is_playing = none → u.timestamp = none →
      (update_state s u now).last_sync_time = s.last_sync_time) ∧
    (u.video_data = none → (update_state s u now).video_data = s.video_data) ∧
    (u.is_playing = none → (update_state s u now).is_playing = s.is_playing) ∧
    (u.timestamp = none → (update_state s u now).timestamp = s.timestamp) ∧
    (u.queue = none → (update_state s u now).queue = s.queue) ∧
    (u.playing_index = none → (update_state s u now).playing_index = s.playing_index) ∧
    (u.roles = none → (update_state s u now).roles = s.roles) ∧
    (u.permanent = none → (update_state s u now).permanent = s.permanent) ∧
    (∀ x, u.video_data = some x → (update_state s u now).video_data = x) ∧
    (∀ b, u.is_playing = some b → (update_state s u now).is_playing = b) ∧
    (∀ t, u.timestamp = some t → (update_state s u now).timestamp = t) ∧
    (∀ q, u.queue = some q → (update_state s u now).queue = q) ∧
    (∀ i, u.playing_index = some i → (update_state s u now).playing_index = i) ∧
    (get_sync_payload
        (update_state s { is_playing := some false, timestamp := some p } now)
        now2).timestamp = p := by
  unfold update_state get_sync_payload sync_timestamp
  refine ⟨?_, ?_, ?_, ?_, ?_, ?_, ?_, ?_, ?_, ?_, ?_, ?_, ?_, ?_, ?_⟩
  · intro hx
    rw [if_pos hx]
  · intro hx hy
    rw [if_neg (by simp [hx, hy])]
  · intro hx
    split <;> simp [hx]
  · intro hx
    split <;> simp [hx]
  · intro hx
    split <;> simp [hx]
  · intro hx
    split <;> simp [hx]
  · intro hx
    split <;> simp [hx]
  · intro hx
    split <;> simp [hx]
  · intro hx
    split <;> simp [hx]
  · intro x hx
    split <;> simp [hx]
  · intro b hx
    split <;> simp [hx]
  · intro t hx
    split <;> simp [hx]
  · intro q hx
    split <;> simp [hx]
  · intro i hx
    split <;> simp [hx]
  · rfl

/-- C6 witness: pausing at position 33 at wall time 200 then reading the
payload at wall time 205 returns exactly 33 (no extrapolation); a
permanent-only update leaves the sync clock untouched, while the pause
refreshed it. -/
theorem C6_update_state_merge_witness :
    (get_sync_payload
        (update_state roomAt10 { is_playing := some false, timestamp := some 33 } 200)
        205).timestamp = 33 ∧
    (update_state roomAt10 { permanent := some true } 200).last_sync_time
      = roomAt10.last_sync_time ∧
    (update_state roomAt10
        { is_playing := some false, timestamp := some 33 } 200).last_sync_time = 200 := by
  have h := C6_update_state_merge roomAt10
    { is_playing := some false, timestamp := some 33 } 200 205 33
  have h2 := C6_update_state_merge roomAt10 { permanent := some true } 200 205 33
  exact ⟨h.2.2.2.2.2.2.2.2.2.2.2.2.2.2, h2.2.1 rfl rfl, h.1 (Or.inl rfl)⟩

theorem lookupRole_setRole_self (roles : List (String × String)) (e r : String) :
    lookupRole (setRole roles e r) e = some r := by
  induction roles with
  | nil => simp [setRole, lookupRole]
  | cons p ps ih =>
    by_cases hp : p.1 = e
    · simp [setRole, lookupRole, hp]
    · simp [setRole, lookupRole, hp, ih]

/-- C8: `promote_user` changes the roles mapping only when the requester's
current role is admin and the new role is one of admin/moderator/user; a
missing room, a non-admin requester or an invalid role is a silent no-op that
leaves the room unchanged and returns failure. -/
theorem C8_promote_requires_admin (s : RoomState) (req tgt role : String) :
    (promote_user none req tgt role = (none, false)) ∧
    (lookupRole s.roles req ≠ some "admin" →
      promote_user (some s) req tgt role = (some s, false)) ∧
    (role ∉ (["admin", "moderator", "user"] : List String) →
      promote_user (some s) req tgt role = (some s, false)) ∧
    (lookupRole s.roles req = some "admin" →
      role ∈ (["admin", "moderator", "user"] : List String) →
      promote_user (some s) req tgt role
          = (some { s with roles := setRole s.roles tgt role }, true) ∧
        lookupRole (setRole s.roles tgt role) tgt = some role) := by
  refine ⟨rfl, ?_, ?_, ?_⟩
  · intro hx
    unfold promote_user
    dsimp only
    rw [if_pos hx]
  · intro hx
    unfold promote_user
    dsimp only
    by_cases hadm : lookupRole s.roles req ≠ some "admin"
    · rw [if_pos hadm]
    · rw [if_neg hadm, if_pos hx]
  · intro hadm hmem
    unfold promote_user
    dsimp only
    rw [if_neg (by simp [hadm]), if_neg (by simp [hmem])]
    exact ⟨rfl, lookupRole_setRole_self s.roles tgt role⟩

/-- Concrete room with an admin and a user. -/
def roomRoles : RoomState :=
  { initRoom 0 with roles := [("alice", "admin"), ("bob", "user")] }

/-- C8 witness: the non-admin `bob` fails to promote (state unchanged), the
admin `alice` promotes `bob` to moderator, and an invalid role name fails even
for the admin. -/
theorem C8_promote_requires_admin_witness :
    promote_user (some roomRoles) "bob" "alice" "user" = (some roomRoles, false) ∧
    promote_user (some roomRoles) "alice" "bob" "moderator"
      = (some { roomRoles with roles := [("alice", "admin"), ("bob", "moderator")] },
         true) ∧
    promote_user (some roomRoles) "alice" "bob" "owner" = (some roomRoles, false) := by
  have h1 := C8_promote_requires_admin roomRoles "bob" "alice" "user"
  have h2 := C8_promote_requires_admin roomRoles "alice" "bob" "moderator"
  have h3 := C8_promote_requires_admin roomRoles "alice" "bob" "owner"
  refine ⟨h1.2.1 (by decide), ?_, h3.2.2.1 (by decide)⟩
  exact ((h2.2.2.2 (by decide) (by decide)).1).trans (by decide)

theorem memBytes_append (a b : List MemEntry) :
    memBytes (a ++ b) = memBytes a + memBytes b := by
  simp [memBytes]

theorem extractFirst_spec (p : MemEntry → Bool) :
    ∀ (es : List MemEntry) (x : MemEntry) (r : List MemEntry),
      extractFirst p es = some (x, r) →
      memBytes es = x.data.length + memBytes r ∧
      es.length = r.length + 1 ∧
      ∀ e ∈ r, e ∈ es := by
  intro es
  induction es with
  | nil => intro x r h; simp [extractFirst] at h
  | cons e es ih =>
    intro x r h
    unfold extractFirst at h
    split at h
    case isTrue hp =>
      cases h
      exact ⟨by simp [memBytes], by simp, fun a ha => List.mem_cons_of_mem _ ha⟩
    case isFalse hp =>
      cases hrec : extractFirst p es with
      | none => rw [hrec] at h; simp at h
      | some pr =>
        obtain ⟨x', r'⟩ := pr
        rw [hrec] at h
        simp only [Option.map_some, Option.some.injEq, Prod.mk.injEq] at h
        obtain ⟨hx, hr⟩ := h
        subst hx
        subst hr
        obtain ⟨h1, h2, h3⟩ := ih _ _ hrec
        refine ⟨?_, by simp [h2], ?_⟩
        · simp only [memBytes, List.map_cons, List.sum_cons] at h1 ⊢
          omega
        · intro a ha
          rcases List.mem_cons.mp ha with rfl | ha'
          · exact List.mem_cons_self a es
          · exact List.mem_cons_of_mem _ (h3 a ha')

theorem evictLoop_spec (max_size incoming : Nat) :
    ∀ (fuel : Nat) (es : List MemEntry) (sz : Int) (au : List String),
      sz = (memBytes es : Int) →
      (evictLoop max_size incoming fuel es sz au).2.1
        = (memBytes (evictLoop max_size incoming fuel es sz au).1 : Int) ∧
      (∀ e ∈ (evictLoop max_size incoming fuel es sz au).1, e ∈ es) ∧
      (es.length ≤ fuel →
        (evictLoop max_size incoming fuel es sz au).2.1 + (incoming : Int)
            ≤ (max_size : Int) ∨
          (evictLoop max_size incoming fuel es sz au).1 = []) := by
  intro fuel
  induction fuel with
  | zero =>
    intro es sz au hacc
    refine ⟨hacc, fun e he => he, ?_⟩
    intro hlen
    right
    exact List.length_eq_zero.mp (Nat.le_zero.mp hlen)
  | succ fuel ih =>
    intro es sz au hacc
    unfold evictLoop
    split
    case isTrue hcond =>
      cases hext : extractFirst (fun e => !(au.contains e.key)) es with
      | some pr =>
        obtain ⟨x, r⟩ := pr
        dsimp only
        obtain ⟨hb, hl, hsub⟩ := extractFirst_spec _ es x r hext
        have hacc' : sz - (x.data.length : Int) = (memBytes r : Int) := by
          rw [hacc, hb]; push_cast; ring
        obtain ⟨ih1, ih2, ih3⟩ := ih r (sz - (x.data.length : Int)) au hacc'
        exact ⟨ih1, fun e he => hsub e (ih2 e he), fun hlen => ih3 (by omega)⟩
      | none =>
        cases es with
        | nil => exact absurd rfl hcond.2
        | cons e r =>
          dsimp only
          have hacc' : sz - (e.data.length : Int) = (memBytes r : Int) := by
            rw [hacc]
            simp only [memBytes, List.map_cons, List.sum_cons]
            push_cast; ring
          obtain ⟨ih1, ih2, ih3⟩ :=
            ih r (sz - (e.data.length : Int)) (au.filter (fun k => k ≠ e.key)) hacc'
          refine ⟨ih1, fun a ha => List.mem_cons_of_mem _ (ih2 a ha), ?_⟩
          intro hlen
          exact ih3 (by simpa using Nat.le_of_succ_le_succ hlen)
    case isFalse hcond =>
      dsimp only
      refine ⟨hacc, fun e he => he, ?_⟩
      intro _
      rcases Decidable.not_and_iff_or_not.mp hcond with hle | hne
      · left; omega
      · right; simpa using hne

theorem putPopped_spec (c : MemoryCache) (key : String)
    (hacc : c.current_size = (memBytes c.cache : Int)) :
    (putPopped c key).2.1 = (memBytes (putPopped c key).1 : Int) ∧
    ∀ e ∈ (putPopped c key).1, e ∈ c.cache := by
  unfold putPopped
  cases hext : extractFirst (fun e => e.key == key) c.cache with
  | none => exact ⟨hacc, fun e he => he⟩
  | some pr =>
    obtain ⟨x, r⟩ := pr
    obtain ⟨hb, hl, hsub⟩ := extractFirst_spec _ c.cache x r hext
    refine ⟨?_, hsub⟩
    dsimp only
    rw [hacc, hb]; push_cast; ring

theorem put_big (c : MemoryCache) (key : String) (data : List Nat) (ctype : String)
    (is_audio : Bool) (now : Rat) (hbig : data.length > c.max_size / 4) :
    c.put key data ctype is_audio now = c := by
  simp only [MemoryCache.put]
  rw [if_pos hbig]

theorem put_small (c : MemoryCache) (key : String) (data : List Nat) (ctype : String)
    (is_audio : Bool) (now : Rat) (hok : ¬ data.length > c.max_size / 4) :
    c.put key data ctype is_audio now =
      { cache := (evictLoop c.max_size data.length (putPopped c key).1.length
            (putPopped c key).1 (putPopped c key).2.1 (putPopped c key).2.2).1
            ++ [{ key := key, data := data, ctype := ctype, added_at := now }]
        current_size := (evictLoop c.max_size data.length (putPopped c key).1.length
            (putPopped c key).1 (putPopped c key).2.1 (putPopped c key).2.2).2.1
            + (data.length : Int)
        max_size := c.max_size
        audio_keys :=
          (if is_audio then
            (if (evictLoop c.max_size data.length (putPopped c key).1.length
                  (putPopped c key).1 (putPopped c key).2.1
                  (putPopped c key).2.2).2.2.contains key then
              (evictLoop c.max_size data.length (putPopped c key).1.length
                  (putPopped c key).1 (putPopped c key).2.1 (putPopped c key).2.2).2.2
             else
              (evictLoop c.max_size data.length (putPopped c key).1.length
                  (putPopped c key).1 (putPopped c key).2.1 (putPopped c key).2.2).2.2
                ++ [key])
           else
            (evictLoop c.max_size data.length (putPopped c key).1.length
                (putPopped c key).1 (putPopped c key).2.1
                (putPopped c key).2.2).2.2) } := by
  simp only [MemoryCache.put]
  rw [if_neg hok]

theorem put_preserves_inv (c : MemoryCache)
    (hacc : c.current_size = (memBytes c.cache : Int))
    (hbound : memBytes c.cache ≤ c.max_size)
    (hitem : ∀ e ∈ c.cache, e.data.length ≤ c.max_size / 4)
    (key : String) (data : List Nat) (ctype : String) (is_audio : Bool) (now : Rat) :
    (c.put key data ctype is_audio now).max_size = c.max_size ∧
    (c.put key data ctype is_audio now).current_size
      = (memBytes (c.put key data ctype is_audio now).cache : Int) ∧
    memBytes (c.put key data ctype is_audio now).cache ≤ c.max_size ∧
    ∀ e ∈ (c.put key data ctype is_audio now).cache,
      e.data.length ≤ c.max_size / 4 := by
  by_cases hbig : data.length > c.max_size / 4
  · rw [put_big c key data ctype is_audio now hbig]
    exact ⟨rfl, hacc, hbound, hitem⟩
  · rw [put_small c key data ctype is_audio now hbig]
    obtain ⟨p1, p2⟩ := putPopped_spec c key hacc
    obtain ⟨e1, e2, e3⟩ := evictLoop_spec c.max_size data.length
      (putPopped c key).1.length (putPopped c key).1 (putPopped c key).2.1
      (putPopped c key).2.2 p1
    have hsmall : data.length ≤ c.max_size / 4 := by omega
    have hdivle := Nat.div_le_self c.max_size 4
    refine ⟨rfl, ?_, ?_, ?_⟩
    · dsimp only
      rw [memBytes_append, e1,
        show memBytes [{ key := key, data := data, ctype := ctype, added_at := now }]
          = data.length by simp [memBytes]]
      push_cast
      ring
    · dsimp only
      rw [memBytes_append,
        show memBytes [{ key := key, data := data, ctype := ctype, added_at := now }]
          = data.length by simp [memBytes]]
      rcases e3 (Nat.le_refl _) with hle | hemp
      · rw [e1] at hle
        omega
      · rw [hemp,
          show memBytes ([] : List MemEntry) = 0 by simp [memBytes]]
        omega
    · intro e he
      dsimp only at he
      rcases List.mem_append.mp he with he' | he'
      · exact hitem e (p2 e (e2 e he'))
      · rcases List.mem_singleton.mp he' with rfl
        exact hsmall

/-- C7: after any sequence of `put` operations from a fresh memory cache, the
resident bytes never exceed the configured cap and no stored entry exceeds
the 25 percent max-item threshold; moreover an oversized payload is rejected
without storing it and without evicting anything (the cache is returned
unchanged). -/
theorem C7_memory_cache_invariant (c : MemoryCache) (h : MemReachable c) :
    memBytes c.cache ≤ c.max_size ∧
    (∀ e ∈ c.cache, e.data.length ≤ c.max_size / 4) ∧
    (∀ (key : String) (data : List Nat) (ctype : String) (is_audio : Bool) (now : Rat),
      data.length > c.max_size / 4 →
      c.put key data ctype is_audio now = c) := by
  have hmain : c.current_size = (memBytes c.cache : Int) ∧
      memBytes c.cache ≤ c.max_size ∧
      ∀ e ∈ c.cache, e.data.length ≤ c.max_size / 4 := by
    induction h with
    | empty n =>
      exact ⟨rfl, by simp [MemoryCache.empty, memBytes], by simp [MemoryCache.empty]⟩
    | put key data ctype is_audio now hc ih =>
      obtain ⟨ihacc, ihbound, ihitem⟩ := ih
      obtain ⟨q0, q1, q2, q3⟩ :=
        put_preserves_inv _ ihacc ihbound ihitem key data ctype is_audio now
      exact ⟨q1, by rw [q0]; exact q2, by rw [q0]; exact q3⟩
  exact ⟨hmain.2.1, hmain.2.2, fun key data ctype is_audio now hbig =>
    put_big c key data ctype is_audio now hbig⟩

/-- C7 witness: a fresh 100-byte cache after a put stays within bounds, and a
26-byte payload (over the 25-byte max-item threshold) is rejected, leaving the
cache untouched. -/
theorem C7_memory_cache_invariant_witness :
    memBytes ((MemoryCache.empty 100).put "a" [1, 2, 3] "t" false 0).cache ≤ 100 ∧
    (((MemoryCache.empty 100).put "a" [1, 2, 3] "t" false 0).put "b"
        (List.replicate 26 0) "t" true 5
      = (MemoryCache.empty 100).put "a" [1, 2, 3] "t" false 0) := by
  have h := C7_memory_cache_invariant _
    (MemReachable.put "a" [1, 2, 3] "t" false 0 (MemReachable.empty 100))
  exact ⟨h.1, h.2.2 "b" (List.replicate 26 0) "t" true 5 (by decide)⟩

/-- C10 counterexample: the header `bytes=1-2-3` is not of the form
`bytes=S-E` or `bytes=S-`, yet `parse_range_header` returns `(1, 2)` (the
first two dash-separated groups) instead of the claimed `(0, None)`. -/
theorem C10_counterexample :
    parse_range_header "bytes=1-2-3".toList = (1, some 2) ∧
    parse_range_header "bytes=1-2-3".toList ≠ (0, none) := by decide

theorem dropWhile_eq_self_of_none {α : Type} (p : α → Bool) (l : List α)
    (h : ∀ c ∈ l, p c = false) : l.dropWhile p = l := by
  cases l with
  | nil => rfl
  | cons a l => simp [List.dropWhile_cons, h a (List.mem_cons_self a l)]

theorem pyStrip_no_space (l : List Char) (h : ∀ c ∈ l, isSpaceChar c = false) :
    pyStrip l = l := by
  unfold pyStrip
  rw [dropWhile_eq_self_of_none _ _ h,
    dropWhile_eq_self_of_none _ _ (fun c hc => h c (List.mem_reverse.mp hc)),
    List.reverse_reverse]

theorem digit_not_space (c : Char) (h : c.isDigit = true) : isSpaceChar c = false := by
  cases hsp : isSpaceChar c
  · rfl
  · exfalso
    unfold isSpaceChar at hsp
    rcases of_decide_eq_true hsp with h1 | h1 | h1 | h1 | h1 | h1 <;>
      (subst h1; exact absurd h (by decide))

theorem pyDigitsTail_digits (l : List Char) (h : ∀ c ∈ l, c.isDigit = true) :
    pyDigitsTail l = true := by
  induction l with
  | nil => rfl
  | cons c cs ih =>
    have hc := h c (List.mem_cons_self c cs)
    have hne : ¬ c = '_' := fun e => by subst e; exact absurd hc (by decide)
    unfold pyDigitsTail
    rw [if_neg hne, hc, ih (fun d hd => h d (List.mem_cons_of_mem c hd))]
    rfl

theorem pyDigitsOk_digits (l : List Char) (hne : l ≠ [])
    (h : ∀ c ∈ l, c.isDigit = true) : pyDigitsOk l = true := by
  cases l with
  | nil => exact absurd rfl hne
  | cons c cs =>
    unfold pyDigitsOk
    dsimp only
    rw [h c (List.mem_cons_self c cs),
      pyDigitsTail_digits cs (fun d hd => h d (List.mem_cons_of_mem c hd))]
    rfl

theorem pyInt_digits (l : List Char) (hne : l ≠ [])
    (h : ∀ c ∈ l, c.isDigit = true) :
    pyInt l = some ((digitsVal l : Nat) : Int) := by
  have hfilter : l.filter (fun x => x ≠ '_') = l :=
    List.filter_eq_self.mpr (fun a ha => by
      have hd := h a ha
      have hne' : a ≠ '_' := fun e => by subst e; exact absurd hd (by decide)
      simp [hne'])
  unfold pyInt
  rw [pyStrip_no_space l (fun c hc => digit_not_space c (h c hc))]
  cases l with
  | nil => exact absurd rfl hne
  | cons c cs =>
    have hc := h c (List.mem_cons_self c cs)
    have hplus : ¬ c = '+' := fun e => by subst e; exact absurd hc (by decide)
    have hminus : ¬ c = '-' := fun e => by subst e; exact absurd hc (by decide)
    dsimp only
    rw [if_neg hplus, if_neg hminus, if_pos (pyDigitsOk_digits _ (by simp) h), hfilter]

theorem splitOnChar_not_mem (sep : Char) (l : List Char) (h : ¬ sep ∈ l) :
    splitOnChar sep l = [l] := by
  induction l with
  | nil => rfl
  | cons c cs ih =>
    unfold splitOnChar
    rw [if_neg (fun e => h (by rw [← e]; exact List.mem_cons_self c cs)),
      ih (fun hm => h (List.mem_cons_of_mem c hm))]

theorem splitOnChar_append (sep : Char) (l1 l2 : List Char) (h : ¬ sep ∈ l1) :
    splitOnChar sep (l1 ++ sep :: l2) = l1 :: splitOnChar sep l2 := by
  induction l1 with
  | nil => simp [splitOnChar]
  | cons c cs ih =>
    show splitOnChar sep (c :: (cs ++ sep :: l2)) = (c :: cs) :: splitOnChar sep l2
    conv_lhs => rw [splitOnChar.eq_def]
    dsimp only
    rw [if_neg (fun e => h (by rw [← e]; exact List.mem_cons_self c cs)),
      ih (fun hm => h (List.mem_cons_of_mem c hm))]

theorem isPrefixOf_appended (l1 l2 : List Char) : l1.isPrefixOf (l1 ++ l2) = true := by
  induction l1 with
  | nil => simp [List.isPrefixOf]
  | cons a as ih => simp [List.isPrefixOf, ih]

theorem bytes_append_ne_nil (l : List Char) : "bytes=".toList ++ l ≠ [] := by
  intro hx
  have h6 : ("bytes=".toList).length = 6 := by decide
  have hlen := congrArg List.length hx
  rw [List.length_append, h6, List.length_nil] at hlen
  omega

theorem parse_range_header_bytes (spec : List Char) :
    parse_range_header ("bytes=".toList ++ spec) =
      (if '-' ∈ spec then
        match splitOnChar '-' spec with
        | p0 :: p1 :: _ =>
          match (if p0 = [] then some (0 : Int) else pyInt p0) with
          | none => (0, none)
          | some start =>
            if p1 = [] then (start, none)
            else
              match pyInt p1 with
              | none => (0, none)
              | some e => (start, some e)
        | _ => (0, none)
      else (0, none)) := by
  unfold parse_range_header
  rw [if_neg (not_or.mpr
    ⟨bytes_append_ne_nil spec, not_not_intro (isPrefixOf_appended _ _)⟩)]
  have hd : ("bytes=".toList ++ spec).drop 6 = spec := by
    have hdl := List.drop_left "bytes=".toList spec
    rwa [(by decide : ("bytes=".toList).length = 6)] at hdl
  dsimp only
  rw [hd]

/-- C10 amended: `parse_range_header` is total — a missing header, a wrong
prefix, a spec without a dash, or a dash-split bound that fails integer
parsing yields `(0, None)` instead of raising (the last two conjuncts: a
non-empty first group that `int()` rejects, and a non-empty second group that
`int()` rejects while the first is empty or numeric, each give `(0, None)`
whatever follows); a well-formed `bytes=S-E` returns `(S, E)` and `bytes=S-`
returns `(S, None)`; additionally an empty start bound is treated as 0
(`bytes=-E` gives `(0, E)`) and dash groups after the second are ignored
(`bytes=1-2-3` gives `(1, 2)`), so those inputs do not fall into the
`(0, None)` catch-all the original claim assigned them. -/
theorem C10_parse_range_total (h0 spec ds es : List Char)
    (hpre : ¬ ("bytes=".toList.isPrefixOf h0))
    (hnd : ¬ '-' ∈ spec)
    (hds : ds ≠ [] ∧ ∀ c ∈ ds, c.isDigit = true)
    (hes : es ≠ [] ∧ ∀ c ∈ es, c.isDigit = true) :
    parse_range_header [] = (0, none) ∧
    parse_range_header h0 = (0, none) ∧
    parse_range_header ("bytes=".toList ++ spec) = (0, none) ∧
    parse_range_header ("bytes=".toList ++ (ds ++ '-' :: es))
      = (((digitsVal ds : Nat) : Int), some ((digitsVal es : Nat) : Int)) ∧
    parse_range_header ("bytes=".toList ++ (ds ++ ['-']))
      = (((digitsVal ds : Nat) : Int), none) ∧
    parse_range_header ("bytes=".toList ++ '-' :: es)
      = (0, some ((digitsVal es : Nat) : Int)) ∧
    (∀ (sp p0 p1 : List Char) (ps : List (List Char)),
      '-' ∈ sp → splitOnChar '-' sp = p0 :: p1 :: ps →
      p0 ≠ [] → pyInt p0 = none →
      parse_range_header ("bytes=".toList ++ sp) = (0, none)) ∧
    (∀ (sp p0 p1 : List Char) (ps : List (List Char)) (v : Int),
      '-' ∈ sp → splitOnChar '-' sp = p0 :: p1 :: ps →
      (p0 = [] ∨ pyInt p0 = some v) →
      p1 ≠ [] → pyInt p1 = none →
      parse_range_header ("bytes=".toList ++ sp) = (0, none)) := by
  have hndds : ¬ '-' ∈ ds := fun hm => absurd (hds.2 '-' hm) (by decide)
  have hndes : ¬ '-' ∈ es := fun hm => absurd (hes.2 '-' hm) (by decide)
  refine ⟨by decide, ?_, ?_, ?_, ?_, ?_, ?_, ?_⟩
  · unfold parse_range_header
    rw [if_pos (Or.inr hpre)]
  · rw [parse_range_header_bytes spec, if_neg hnd]
  · rw [parse_range_header_bytes, if_pos
        (List.mem_append.mpr (Or.inr (List.mem_cons_self '-' es))),
      splitOnChar_append '-' ds es hndds, splitOnChar_not_mem '-' es hndes]
    dsimp only
    rw [if_neg hds.1, pyInt_digits ds hds.1 hds.2]
    dsimp only
    rw [if_neg hes.1, pyInt_digits es hes.1 hes.2]
  · rw [parse_range_header_bytes, if_pos
        (List.mem_append.mpr (Or.inr (List.mem_cons_self '-' []))),
      splitOnChar_append '-' ds [] hndds,
      (by decide : splitOnChar '-' ([] : List Char) = [[]])]
    dsimp only
    rw [if_neg hds.1, pyInt_digits ds hds.1 hds.2]
    dsimp only
    rw [if_pos rfl]
  · rw [parse_range_header_bytes, if_pos (List.mem_cons_self '-' es),
      (by rfl : ('-' :: es : List Char) = [] ++ '-' :: es),
      splitOnChar_append '-' [] es (by simp), splitOnChar_not_mem '-' es hndes]
    dsimp only
    rw [if_pos rfl]
    dsimp only
    rw [if_neg hes.1, pyInt_digits es hes.1 hes.2]
  · intro sp p0 p1 ps hmem hsplit hne0 hfail
    rw [parse_range_header_bytes, if_pos hmem, hsplit]
    dsimp only
    rw [if_neg hne0, hfail]
  · intro sp p0 p1 ps v hmem hsplit hp0 hne1 hfail
    rw [parse_range_header_bytes, if_pos hmem, hsplit]
    dsimp only
    rcases hp0 with hp0 | hp0
    · rw [if_pos hp0]
      dsimp only
      rw [if_neg hne1, hfail]
    · have hne0 : p0 ≠ [] := by
        intro e
        rw [e, (by decide : pyInt ([] : List Char) = none)] at hp0
        exact Option.noConfusion hp0
      rw [if_neg hne0, hp0]
      dsimp only
      rw [if_neg hne1, hfail]

/-- C10 witness: the amended statement evaluated on concrete headers — a
wrong prefix, a dashless spec, `bytes=12-345`, `bytes=12-`, `bytes=-345`, and
the two failing-bound shapes `bytes=a-2` (first bound not numeric) and
`bytes=5-x` (second bound not numeric). -/
theorem C10_parse_range_total_witness :
    parse_range_header [] = (0, none) ∧
    parse_range_header "xyz".toList = (0, none) ∧
    parse_range_header "bytes=99".toList = (0, none) ∧
    parse_range_header "bytes=12-345".toList = (12, some 345) ∧
    parse_range_header "bytes=12-".toList = (12, none) ∧
    parse_range_header "bytes=-345".toList = (0, some 345) ∧
    parse_range_header "bytes=a-2".toList = (0, none) ∧
    parse_range_header "bytes=5-x".toList = (0, none) := by
  obtain ⟨h1, h2, h3, h4, h5, h6, h7, h8⟩ :=
    C10_parse_range_total "xyz".toList "99".toList "12".toList "345".toList
      (by decide) (by decide) (by decide) (by decide)
  refine ⟨h1, h2, ?_, ?_, ?_, ?_, ?_, ?_⟩
  · rw [(by decide : ("bytes=99".toList : List Char) = "bytes=".toList ++ "99".toList)]
    exact h3
  · rw [(by decide : ("bytes=12-345".toList : List Char)
        = "bytes=".toList ++ ("12".toList ++ '-' :: "345".toList))]
    rw [h4]
    decide
  · rw [(by decide : ("bytes=12-".toList : List Char)
        = "bytes=".toList ++ ("12".toList ++ ['-']))]
    rw [h5]
    decide
  · rw [(by decide : ("bytes=-345".toList : List Char)
        = "bytes=".toList ++ '-' :: "345".toList)]
    rw [h6]
    decide
  · rw [(by decide : ("bytes=a-2".toList : List Char)
        = "bytes=".toList ++ "a-2".toList)]
    exact h7 "a-2".toList "a".toList "2".toList [] (by decide) (by decide)
      (by decide) (by decide)
  · rw [(by decide : ("bytes=5-x".toList : List Char)
        = "bytes=".toList ++ "5-x".toList)]
    exact h8 "5-x".toList "5".toList "x".toList [] 5 (by decide) (by decide)
      (Or.inr (by decide)) (by decide) (by decide)
